import Mathlib

/-!
Shallow embedding of `tools/upload.py`, a command-line tool that uploads
image files to an S3-compatible object store, with optional resizing and
JPEG re-encoding, plus list and delete modes.

Strings are Lean `String`s; all character-level operations are written over
`String.data` (`List Char`) so that concrete instances evaluate by kernel
reduction.  The filesystem, the image decoder and the JPEG encoder of the
imaging library are an explicit environment (`World`).  The floating-point
ratio `max_width / img.width` of the source is embedded as exact rational
scaling, so `int(img.height * ratio)` becomes floor division on `Nat`.
-/

namespace R2Upload

/-- Split a character list at every occurrence of `c` (the separators are
dropped; adjacent separators yield empty groups). -/
def splitOnChar (c : Char) : List Char → List (List Char)
  | [] => [[]]
  | x :: xs =>
    match splitOnChar c xs with
    | [] => [[]]
    | g :: gs => if x = c then [] :: g :: gs else (x :: g) :: gs

/-- Last path component, as `pathlib.PurePosixPath.name`: the final
nonempty `/`-separated segment (empty for a bare root or empty path). -/
def pathName (p : String) : String :=
  String.mk (((splitOnChar '/' p.data).filter (fun g => !g.isEmpty)).getLastD [])

/-- Split a file name into stem and suffix following `pathlib`: the suffix
starts at the last dot, provided that dot is neither the first nor the
last character of the name; otherwise the suffix is empty. -/
def splitExt (n : List Char) : List Char × List Char :=
  let afterRev := n.reverse.takeWhile (fun c => c != '.')
  if afterRev.length = n.length then (n, [])
  else
    let i := n.length - afterRev.length - 1
    if 0 < i ∧ i < n.length - 1 then (n.take i, n.drop i) else (n, [])

/-- `Path.stem`: the final component without its suffix. -/
def pathStem (p : String) : String :=
  String.mk (splitExt (pathName p).data).1

/-- `Path.suffix`: the extension of the final component, dot included
(empty when there is none). -/
def pathSuffix (p : String) : String :=
  String.mk (splitExt (pathName p).data).2

/-- ASCII-level lowercasing, as `str.lower()` on the extensions involved. -/
def toLowerStr (s : String) : String :=
  String.mk (s.data.map Char.toLower)

/-- Strip all trailing `/` characters, as `str.rstrip("/")`. -/
def rstripSlash (s : String) : String :=
  String.mk ((s.data.reverse.dropWhile (fun c => c == '/')).reverse)

/-- Lexicographic comparison of character lists by code point, matching
Python string comparison. -/
def lexLe : List Char → List Char → Bool
  | [], _ => true
  | _ :: _, [] => false
  | a :: as, b :: bs =>
    if a.toNat < b.toNat then true
    else if b.toNat < a.toNat then false
    else lexLe as bs

/-- String comparison used by `sorted` on the paths of one directory. -/
def strLeB (a b : String) : Bool := lexLe a.data b.data

/-- Insert a string into a list, before the first element it compares
less-or-equal to. -/
def orderedInsertLe (x : String) : List String → List String
  | [] => [x]
  | y :: ys => if strLeB x y then x :: y :: ys else y :: orderedInsertLe x ys

/-- Sorting of the directory listing, as Python `sorted` (an arbitrary
correct comparison sort: equal keys are equal strings, so the output is
determined by the multiset and the order). -/
def sortedPaths : List String → List String
  | [] => []
  | x :: xs => orderedInsertLe x (sortedPaths xs)

/-- The five environment-derived connection parameters. -/
structure Config where
  accountId : String
  accessKeyId : String
  secretAccessKey : String
  bucketName : String
  publicUrl : String
  deriving Repr, DecidableEq

/-- Module-level configuration loading: each `os.environ[...]` lookup
raises `KeyError` (modelled as `Except.error` naming the variable) when the
variable is absent; `R2_PUBLIC_URL` gets its trailing slashes stripped.  No
other validation is performed. -/
def loadConfig (env : String → Option String) : Except String Config :=
  match env "R2_ACCOUNT_ID" with
  | none => .error "R2_ACCOUNT_ID"
  | some a =>
  match env "R2_ACCESS_KEY_ID" with
  | none => .error "R2_ACCESS_KEY_ID"
  | some k =>
  match env "R2_SECRET_ACCESS_KEY" with
  | none => .error "R2_SECRET_ACCESS_KEY"
  | some sk =>
  match env "R2_BUCKET_NAME" with
  | none => .error "R2_BUCKET_NAME"
  | some b =>
  match env "R2_PUBLIC_URL" with
  | none => .error "R2_PUBLIC_URL"
  | some u =>
  .ok { accountId := a, accessKeyId := k, secretAccessKey := sk,
        bucketName := b, publicUrl := rstripSlash u }

/-- Pixel modes of the imaging library that matter here.  `RGBA` is color
with alpha, `P` is palette, `LA` is grayscale with alpha, `L` grayscale,
`CMYK` four-channel print color. -/
inductive Mode where
  | RGB
  | RGBA
  | P
  | L
  | LA
  | CMYK
  deriving Repr, DecidableEq

/-- Whether a pixel mode carries an alpha channel (imaging-library
semantics: both `RGBA` and `LA` do). -/
def hasAlpha : Mode → Bool
  | Mode.RGBA => true
  | Mode.LA => true
  | _ => false

/-- Whether a pixel mode is palette-based. -/
def isPalette : Mode → Bool
  | Mode.P => true
  | _ => false

/-- A decoded image: pixel dimensions and pixel mode. -/
structure PyImage where
  width : Nat
  height : Nat
  mode : Mode
  deriving Repr, DecidableEq

/-- The resize step of `resize_image`: when the width exceeds `max_width`,
scale to `(max_width, int(height * (max_width / width)))`.  The source
computes the ratio in floating point; here the scaling is exact, so the
truncation is floor division on `Nat`. -/
def resizeStep (img : PyImage) (max_width : Nat) : PyImage :=
  if img.width > max_width then
    { img with width := max_width, height := img.height * max_width / img.width }
  else img

/-- The mode-conversion step of `resize_image`: `if img.mode in ("RGBA", "P"):
img = img.convert("RGB")`. -/
def convertStep (img : PyImage) : PyImage :=
  if img.mode = Mode.RGBA ∨ img.mode = Mode.P then { img with mode := Mode.RGB }
  else img

/-- The image handed to the JPEG encoder by `resize_image`. -/
def transcodedImage (img : PyImage) (max_width : Nat) : PyImage :=
  convertStep (resizeStep img max_width)

/-- The environment: filesystem queries and the imaging library.
`decodeImage` is `Image.open` (`none` on unreadable or corrupt data),
`encodeJpeg` the opaque JPEG encoder at a quality level. -/
structure World where
  pathExists : String → Bool
  isDir : String → Bool
  dirEntries : String → List String
  readBytes : String → Option (List Nat)
  decodeImage : String → Option PyImage
  encodeJpeg : PyImage → Nat → List Nat

/-- `resize_image(file_path, max_width, quality)`: decode, resize, convert
mode, re-encode as JPEG; returns the bytes and the content type
`"image/jpeg"`.  `none` models the decode exception propagating. -/
def resize_image (wd : World) (file_path : String) (max_width quality : Nat) :
    Option (List Nat × String) :=
  (wd.decodeImage file_path).map fun img =>
    (wd.encodeJpeg (transcodedImage img max_width) quality, "image/jpeg")

/-- Modelled from the spec: the standard library's best-effort MIME type
guess (`mimetypes.guess_type`, not part of this repository) as a static
extension-to-type lookup table over the lowercased suffix. -/
def mimeTable : List (String × String) :=
  [(".jpg", "image/jpeg"), (".jpeg", "image/jpeg"), (".png", "image/png"),
   (".gif", "image/gif"), (".webp", "image/webp"), (".bmp", "image/bmp"),
   (".tiff", "image/tiff"), (".tif", "image/tiff"), (".svg", "image/svg+xml"),
   (".txt", "text/plain"), (".pdf", "application/pdf"), (".html", "text/html")]

/-- MIME type guessed from the file extension; `none` when the extension
is unknown. -/
def guess_type (path : String) : Option String :=
  (mimeTable.find? (fun e => e.1 == toLowerStr (pathSuffix path))).map (fun e => e.2)

/-- What `upload_file` sends to the store and prints: the destination key,
the uploaded bytes, their content type, and the public URL. -/
structure UploadResult where
  key : String
  data : List Nat
  contentType : String
  url : String
  deriving Repr, DecidableEq

/-- `upload_file(client, file_path, prefix, max_width, quality, no_resize)`.
With `no_resize` the raw bytes are uploaded with a guessed content type
(falling back to `application/octet-stream`) and the original extension;
otherwise `resize_image` supplies JPEG bytes and the extension is `.jpg`.
The key is `prefix + "/" + stem + ext` (`pfx` stands for the source's
`prefix` argument, a reserved word here); the URL is `PUBLIC_URL + "/" + key`.
`none` models a read or decode exception propagating. -/
def upload_file (wd : World) (cfg : Config) (file_path : String) (pfx : String)
    (max_width quality : Nat) (no_resize : Bool) : Option UploadResult :=
  let branch : Option (List Nat × String × String) :=
    if no_resize then
      (wd.readBytes file_path).map fun data =>
        (data, (guess_type file_path).getD "application/octet-stream", pathSuffix file_path)
    else
      (resize_image wd file_path max_width quality).map fun dc => (dc.1, dc.2, ".jpg")
  branch.map fun dce =>
    let key := pfx ++ "/" ++ pathStem file_path ++ dce.2.2
    { key := key, data := dce.1, contentType := dce.2.1,
      url := cfg.publicUrl ++ "/" ++ key }

/-- `IMAGE_EXTENSIONS` from the source. -/
def IMAGE_EXTENSIONS : List String :=
  [".jpg", ".jpeg", ".png", ".webp", ".bmp", ".tiff", ".gif"]

/-- The `for f in files` loop of `collect_files`: existing paths are kept
in order (no extension filter), missing ones produce a SKIP warning on the
error stream. -/
def collectExplicit (wd : World) : List String → List String × List String
  | [] => ([], [])
  | f :: fs =>
    let rest := collectExplicit wd fs
    if wd.pathExists f then (f :: rest.1, rest.2)
    else (rest.1, ("  SKIP: " ++ f ++ " (not found)") :: rest.2)

/-- `collect_files(files, directory)`: first the directory block (guarded
by the truthiness of `directory` and `dir_path.is_dir()`, keeping sorted
entries whose lowercased suffix is an image extension), then the explicit
files.  Returns the collected paths and the warnings emitted to stderr. -/
def collect_files (wd : World) (files : List String) (directory : Option String) :
    List String × List String :=
  let dirPart : List String :=
    match directory with
    | none => []
    | some d =>
      if d ≠ "" then
        if wd.isDir d then
          (sortedPaths (wd.dirEntries d)).filter
            (fun p => IMAGE_EXTENSIONS.contains (toLowerStr (pathSuffix p)))
        else []
      else []
  let rest := collectExplicit wd files
  (dirPart ++ rest.1, rest.2)

/-- Parsed command-line arguments.  `pfx` is the source's `--prefix`
(reserved word here); `delete` is `None` or the given key; `list` and
`no_resize` are `store_true` flags. -/
structure Args where
  files : List String
  dir : Option String
  pfx : String
  width : Nat
  quality : Nat
  no_resize : Bool
  list : Bool
  delete : Option String
  deriving Repr, DecidableEq

/-- The default argument values of the argument parser. -/
def defaultArgs : Args :=
  { files := [], dir := none, pfx := "images", width := 1920, quality := 80,
    no_resize := false, list := false, delete := none }

/-- Python truthiness of an optional string (`if args.delete:` and
`if directory:`): false for `None` and for the empty string. -/
def optTruthy : Option String → Bool
  | none => false
  | some s => !s.isEmpty

/-- Externally visible actions of a run. -/
inductive Action where
  | listBucket
  | deleteKey (key : String)
  | putObject (key : String) (data : List Nat) (contentType : String)
  | warn (msg : String)
  | printHelp
  deriving Repr, DecidableEq

/-- The upload loop of `main`: one `put_object` per collected path, in
order; a read or decode exception aborts the loop (error case, carrying
the actions already performed). -/
def uploadAll (wd : World) (cfg : Config) (args : Args) :
    List String → Except (List Action) (List Action)
  | [] => .ok []
  | p :: ps =>
    match upload_file wd cfg p args.pfx args.width args.quality args.no_resize with
    | none => .error []
    | some r =>
      match uploadAll wd cfg args ps with
      | .ok acts => .ok (Action.putObject r.key r.data r.contentType :: acts)
      | .error acts => .error (Action.putObject r.key r.data r.contentType :: acts)

/-- `main` after argument parsing: the dispatch order is `--list`, then
`--delete` (truthiness-tested), then collection and upload.  Returns the
actions performed and the process exit status (0 for a normal return,
1 for `sys.exit(1)` on an empty collection and for an uncaught exception
in the upload loop). -/
def main (wd : World) (cfg : Config) (args : Args) : List Action × Nat :=
  if args.list then ([Action.listBucket], 0)
  else if optTruthy args.delete then ([Action.deleteKey (args.delete.getD "")], 0)
  else
    let col := collect_files wd args.files args.dir
    let warnActs := col.2.map Action.warn
    if col.1.isEmpty then (warnActs ++ [Action.printHelp], 1)
    else
      match uploadAll wd cfg args col.1 with
      | .ok acts => (warnActs ++ acts, 0)
      | .error acts => (warnActs ++ acts, 1)

/-- The whole program: module-level configuration loading (which runs
before `main` and aborts on a missing variable), then `main`. -/
def runProgram (env : String → Option String) (wd : World) (args : Args) :
    Except String (List Action × Nat) :=
  match loadConfig env with
  | .error e => .error e
  | .ok cfg => .ok (main wd cfg args)

/-- A small concrete environment used to instantiate the theorems:
one decodable 2400x1600 image `photo.png` and one plain file `a.jpg`. -/
def wWit : World :=
  { pathExists := fun p => p == "photo.png" || p == "a.jpg"
    isDir := fun _ => false
    dirEntries := fun _ => []
    readBytes := fun p => if p == "photo.png" then some [1, 2, 3] else none
    decodeImage := fun p =>
      if p == "photo.png" then some ⟨2400, 1600, Mode.RGB⟩ else none
    encodeJpeg := fun img q => [img.width, img.height, q] }

/-- A concrete configuration for instantiating the theorems. -/
def cfgWit : Config :=
  { accountId := "acc", accessKeyId := "ak", secretAccessKey := "sk",
    bucketName := "bkt", publicUrl := "https://pub.example" }

/-- A concrete environment whose directory `d` contains an entry with an
image extension that is itself a directory (`d/sub.jpg`), a plain image
file (`d/pic.png`) and a non-image file (`d/readme.txt`). -/
def dirWorld : World :=
  { pathExists := fun p => p == "d" || p == "d/sub.jpg" || p == "d/pic.png"
    isDir := fun p => p == "d" || p == "d/sub.jpg"
    dirEntries := fun p =>
      if p == "d" then ["d/sub.jpg", "d/pic.png", "d/readme.txt"] else []
    readBytes := fun _ => none
    decodeImage := fun _ => none
    encodeJpeg := fun _ _ => [] }

/-- A concrete environment map providing all five variables, the public
URL with trailing slashes. -/
def envWit : String → Option String := fun v =>
  if v == "R2_ACCOUNT_ID" then some "acc"
  else if v == "R2_ACCESS_KEY_ID" then some "ak"
  else if v == "R2_SECRET_ACCESS_KEY" then some "sk"
  else if v == "R2_BUCKET_NAME" then some "bkt"
  else if v == "R2_PUBLIC_URL" then some "https://pub.example//"
  else none

/-- Concrete arguments: `--delete ""` and nothing else. -/
def argsDeleteEmpty : Args := { defaultArgs with delete := some "" }

end R2Upload

namespace R2Upload

/-! ## Helper lemmas -/

/-- Unfolding of `lexLe` on two nonempty lists. -/
theorem lexLe_cons_iff (x y : Char) (xs ys : List Char) :
    lexLe (x :: xs) (y :: ys) = true ↔
      (x.toNat < y.toNat ∨ (x.toNat = y.toNat ∧ lexLe xs ys = true)) := by
  simp only [lexLe]
  split_ifs with h1 h2
  · simp [h1]
  · constructor
    · intro h; cases h
    · intro h
      rcases h with h | ⟨h, _⟩ <;> omega
  · have hx : x.toNat = y.toNat := by omega
    constructor
    · intro h; exact Or.inr ⟨hx, h⟩
    · intro h
      rcases h with h | ⟨_, h⟩
      · omega
      · exact h

/-- The comparison is total. -/
theorem lexLe_total : ∀ (a b : List Char), lexLe a b = true ∨ lexLe b a = true
  | [], _ => Or.inl rfl
  | _ :: _, [] => Or.inr rfl
  | x :: xs, y :: ys => by
    rcases Nat.lt_trichotomy x.toNat y.toNat with h | h | h
    · exact Or.inl ((lexLe_cons_iff x y xs ys).mpr (Or.inl h))
    · rcases lexLe_total xs ys with h2 | h2
      · exact Or.inl ((lexLe_cons_iff x y xs ys).mpr (Or.inr ⟨h, h2⟩))
      · exact Or.inr ((lexLe_cons_iff y x ys xs).mpr (Or.inr ⟨h.symm, h2⟩))
    · exact Or.inr ((lexLe_cons_iff y x ys xs).mpr (Or.inl h))

/-- The comparison is transitive. -/
theorem lexLe_trans : ∀ {a b c : List Char},
    lexLe a b = true → lexLe b c = true → lexLe a c = true
  | [], _, _, _, _ => rfl
  | _ :: _, [], _, hab, _ => by simp [lexLe] at hab
  | _ :: _, _ :: _, [], _, hbc => by simp [lexLe] at hbc
  | x :: xs, y :: ys, z :: zs, hab, hbc => by
    rw [lexLe_cons_iff] at hab hbc ⊢
    rcases hab with h1 | ⟨h1, h1'⟩ <;> rcases hbc with h2 | ⟨h2, h2'⟩
    · exact Or.inl (by omega)
    · exact Or.inl (by omega)
    · exact Or.inl (by omega)
    · exact Or.inr ⟨by omega, lexLe_trans h1' h2'⟩

/-- String comparison is total. -/
theorem strLeB_total (a b : String) : strLeB a b = true ∨ strLeB b a = true :=
  lexLe_total a.data b.data

/-- String comparison is transitive. -/
theorem strLeB_trans {a b c : String}
    (h1 : strLeB a b = true) (h2 : strLeB b c = true) : strLeB a c = true :=
  lexLe_trans h1 h2

/-- Inserting is a permutation of prepending. -/
theorem orderedInsertLe_perm (x : String) :
    ∀ (l : List String), (orderedInsertLe x l).Perm (x :: l)
  | [] => List.Perm.refl _
  | y :: ys => by
    simp only [orderedInsertLe]
    split_ifs with h
    · exact List.Perm.refl _
    · exact ((orderedInsertLe_perm x ys).cons y).trans (List.Perm.swap x y ys)

/-- Inserting into a sorted list keeps it sorted. -/
theorem orderedInsertLe_pairwise (x : String) :
    ∀ {l : List String}, l.Pairwise (fun a b => strLeB a b = true) →
      (orderedInsertLe x l).Pairwise (fun a b => strLeB a b = true)
  | [], _ => by simp [orderedInsertLe]
  | y :: ys, h => by
    rcases List.pairwise_cons.mp h with ⟨hy, hys⟩
    simp only [orderedInsertLe]
    split_ifs with hxy
    · refine List.pairwise_cons.mpr ⟨?_, h⟩
      intro b hb
      rcases List.mem_cons.mp hb with rfl | hb
      · exact hxy
      · exact strLeB_trans hxy (hy b hb)
    · refine List.pairwise_cons.mpr ⟨?_, orderedInsertLe_pairwise x hys⟩
      intro b hb
      rcases List.mem_cons.mp ((orderedInsertLe_perm x ys).mem_iff.mp hb) with h1 | hb
      · rcases strLeB_total x y with h2 | h2
        · exact absurd h2 hxy
        · rw [h1]; exact h2
      · exact hy b hb

/-- Sorting is a permutation. -/
theorem sortedPaths_perm : ∀ (l : List String), (sortedPaths l).Perm l
  | [] => List.Perm.refl _
  | x :: xs =>
    (orderedInsertLe_perm x (sortedPaths xs)).trans ((sortedPaths_perm xs).cons x)

/-- Sorting sorts. -/
theorem sortedPaths_pairwise :
    ∀ (l : List String), (sortedPaths l).Pairwise (fun a b => strLeB a b = true)
  | [] => List.Pairwise.nil
  | x :: xs => orderedInsertLe_pairwise x (sortedPaths_pairwise xs)

/-- The explicit-file loop keeps exactly the existing paths, in order, and
warns once per missing path, in order. -/
theorem collectExplicit_eq (wd : World) : ∀ (files : List String),
    collectExplicit wd files
      = (files.filter (fun f => wd.pathExists f),
         (files.filter (fun f => !wd.pathExists f)).map
           (fun f => "  SKIP: " ++ f ++ " (not found)"))
  | [] => rfl
  | f :: fs => by
    have ih := collectExplicit_eq wd fs
    cases h : wd.pathExists f <;> simp [collectExplicit, ih, h]

/-- The destination key produced by a successful `upload_file` call. -/
theorem upload_file_key {wd : World} {cfg : Config} {fp pfx : String}
    {mw q : Nat} {nr : Bool} {r : UploadResult}
    (h : upload_file wd cfg fp pfx mw q nr = some r) :
    r.key = (pfx ++ "/") ++ (pathStem fp ++ (if nr then pathSuffix fp else ".jpg")) := by
  cases nr with
  | true =>
    cases hb : wd.readBytes fp with
    | none => simp [upload_file, hb] at h
    | some bs =>
      simp [upload_file, hb] at h
      rw [← h]
      simp [String.append_assoc]
  | false =>
    cases hd : wd.decodeImage fp with
    | none => simp [upload_file, resize_image, hd] at h
    | some img =>
      simp [upload_file, resize_image, hd] at h
      rw [← h]
      simp [String.append_assoc]

/-- Floor division on `Nat` is the floor of the exact rational scaling. -/
theorem nat_scale_floor (a b c : Nat) :
    ⌊(a : ℚ) * ((b : ℚ) / (c : ℚ))⌋₊ = a * b / c := by
  have h : (a : ℚ) * ((b : ℚ) / (c : ℚ)) = ((a * b : ℕ) : ℚ) / (c : ℕ) := by
    push_cast
    ring
  rw [h, Nat.floor_div_nat, Nat.floor_natCast]

/-- Mode conversion does not change the width. -/
theorem convertStep_width (img : PyImage) : (convertStep img).width = img.width := by
  unfold convertStep
  split_ifs <;> rfl

/-- Mode conversion does not change the height. -/
theorem convertStep_height (img : PyImage) : (convertStep img).height = img.height := by
  unfold convertStep
  split_ifs <;> rfl

/-- Resizing does not change the mode. -/
theorem resizeStep_mode (img : PyImage) (m : Nat) :
    (resizeStep img m).mode = img.mode := by
  unfold resizeStep
  split_ifs <;> rfl

/-! ## Claim theorems -/

/-- Claim C1: for every processed input file the destination key is
exactly `prefix + "/" + stem + ext`, with `ext = ".jpg"` when transcoding
occurred and the original extension under `--no-resize`; changing the
prefix changes only the part before the first separator, never the
`stem + ext` tail. -/
theorem upload_key_invariant (wd : World) (cfg : Config) (fp pfx : String)
    (mw q : Nat) (nr : Bool) (r : UploadResult)
    (h : upload_file wd cfg fp pfx mw q nr = some r) :
    r.key = pfx ++ "/" ++ pathStem fp ++ (if nr then pathSuffix fp else ".jpg")
  ∧ ∀ (pfx2 : String) (r2 : UploadResult),
      upload_file wd cfg fp pfx2 mw q nr = some r2 →
      ∃ t, r.key = pfx ++ "/" ++ t ∧ r2.key = pfx2 ++ "/" ++ t := by
  constructor
  · rw [upload_file_key h]
    simp [String.append_assoc]
  · intro pfx2 r2 h2
    exact ⟨pathStem fp ++ (if nr then pathSuffix fp else ".jpg"),
           upload_file_key h, upload_file_key h2⟩

/-- Claim C1, instantiated: uploading `photo.png` without resizing under
two different prefixes. -/
theorem upload_key_invariant_witness :
    UploadResult.key
        { key := "images/photo.png", data := [1, 2, 3], contentType := "image/png",
          url := "https://pub.example/images/photo.png" }
      = "images" ++ "/" ++ pathStem "photo.png"
          ++ (if true then pathSuffix "photo.png" else ".jpg") :=
  (upload_key_invariant wWit cfgWit "photo.png" "images" 1920 80 true
    { key := "images/photo.png", data := [1, 2, 3], contentType := "image/png",
      url := "https://pub.example/images/photo.png" } (by decide)).1

/-- Claim C3: with `--no-resize`, for every existing input file the
uploaded bytes are exactly the file's raw bytes, the content type is the
extension-guessed one with the `application/octet-stream` fallback, and
the destination extension is the original extension. -/
theorem upload_no_resize_identity (wd : World) (cfg : Config) (fp pfx : String)
    (mw q : Nat) (bs : List Nat) (hr : wd.readBytes fp = some bs) :
    upload_file wd cfg fp pfx mw q true =
      some { key := pfx ++ "/" ++ pathStem fp ++ pathSuffix fp
             data := bs
             contentType := (guess_type fp).getD "application/octet-stream"
             url := cfg.publicUrl ++ "/" ++ (pfx ++ "/" ++ pathStem fp ++ pathSuffix fp) } := by
  simp [upload_file, hr]

/-- Claim C3, instantiated at `photo.png`. -/
theorem upload_no_resize_identity_witness :
    upload_file wWit cfgWit "photo.png" "images" 1920 80 true =
      some { key := "images" ++ "/" ++ pathStem "photo.png" ++ pathSuffix "photo.png"
             data := [1, 2, 3]
             contentType := (guess_type "photo.png").getD "application/octet-stream"
             url := cfgWit.publicUrl ++ "/"
               ++ ("images" ++ "/" ++ pathStem "photo.png" ++ pathSuffix "photo.png") } :=
  upload_no_resize_identity wWit cfgWit "photo.png" "images" 1920 80 [1, 2, 3] rfl

/-- Claim C5: explicit paths are appended exactly when they exist, with no
extension filter, in input order, after the directory matches, without
deduplication; each missing path yields one SKIP warning on the error
stream, and collection continues. -/
theorem collect_explicit_spec (wd : World) (files : List String)
    (dir : Option String) :
    (collect_files wd files dir).1
      = (collect_files wd [] dir).1 ++ files.filter (fun f => wd.pathExists f)
  ∧ (collect_files wd files dir).2
      = (files.filter (fun f => !wd.pathExists f)).map
          (fun f => "  SKIP: " ++ f ++ " (not found)") := by
  constructor <;> simp [collect_files, collectExplicit_eq wd files, collectExplicit]

/-- Claim C10: a `--dir` value that is not an existing directory is
silently ignored: the collection (paths and warnings alike) is the same
as if no directory had been given. -/
theorem dir_not_directory_ignored (wd : World) (files : List String)
    (d : String) (h : wd.isDir d = false) :
    collect_files wd files (some d) = collect_files wd files none := by
  simp [collect_files, h]

/-- Claim C10, instantiated: a nonexistent directory with one explicit
file. -/
theorem dir_not_directory_ignored_witness :
    collect_files wWit ["a.jpg"] (some "nodir") = collect_files wWit ["a.jpg"] none :=
  dir_not_directory_ignored wWit ["a.jpg"] "nodir" rfl

/-- Claim C2: for every decodable image and positive maximum width, the
transcoded output is the JPEG re-encoding of the image whose width is the
maximum and whose height is the original height scaled by the exact ratio
`max / width` rounded down when the image is wider than the maximum, and
whose pixel dimensions are unchanged otherwise. -/
theorem resize_image_dims (wd : World) (fp : String) (img : PyImage)
    (m q : Nat) (_hm : 0 < m) (hdec : wd.decodeImage fp = some img) :
    resize_image wd fp m q
      = some (wd.encodeJpeg (transcodedImage img m) q, "image/jpeg")
  ∧ (m < img.width →
      (transcodedImage img m).width = m ∧
      (transcodedImage img m).height
        = ⌊(img.height : ℚ) * ((m : ℚ) / (img.width : ℚ))⌋₊)
  ∧ (img.width ≤ m →
      (transcodedImage img m).width = img.width ∧
      (transcodedImage img m).height = img.height) := by
  refine ⟨by simp [resize_image, hdec], ?_, ?_⟩
  · intro hlt
    rw [transcodedImage, convertStep_width, convertStep_height,
        nat_scale_floor img.height m img.width]
    simp [resizeStep, hlt]
  · intro hle
    rw [transcodedImage, convertStep_width, convertStep_height]
    simp [resizeStep, Nat.not_lt.mpr hle]

/-- Claim C2, instantiated: a 2400x1600 image at maximum width 1920 comes
out 1920x1280. -/
theorem resize_image_dims_witness :
    (transcodedImage ⟨2400, 1600, Mode.RGB⟩ 1920).width = 1920 ∧
    (transcodedImage ⟨2400, 1600, Mode.RGB⟩ 1920).height
      = ⌊((PyImage.mk 2400 1600 Mode.RGB).height : ℚ)
          * ((1920 : ℚ) / ((PyImage.mk 2400 1600 Mode.RGB).width : ℚ))⌋₊ :=
  (resize_image_dims wWit "photo.png" ⟨2400, 1600, Mode.RGB⟩ 1920 80
    (by decide) rfl).2.1 (by decide)

/-- Claim C4, counterexample: the directory filter keeps every entry with
a matching extension, not only files — `d/sub.jpg` is a directory of
`dirWorld` and is still collected. -/
theorem collect_keeps_nonfile_entry :
    dirWorld.isDir "d/sub.jpg" = true
  ∧ "d/sub.jpg" ∈ (collect_files dirWorld [] (some "d")).1 := by
  exact ⟨rfl, by decide⟩

/-- Claim C4 (amended): for an existing directory, the collector keeps
exactly its immediate entries whose lowercased extension is one of the
image extensions — regardless of whether the entry is a file — in
sorted-by-name order, followed by the explicit files. -/
theorem collect_dir_amended (wd : World) (d : String) (files : List String)
    (hdir : wd.isDir d = true) (hne : d ≠ "") :
    List.Pairwise (fun a b => strLeB a b = true) (collect_files wd [] (some d)).1
  ∧ ((collect_files wd [] (some d)).1).Perm
      ((wd.dirEntries d).filter
        (fun p => IMAGE_EXTENSIONS.contains (toLowerStr (pathSuffix p))))
  ∧ (collect_files wd files (some d)).1
      = (collect_files wd [] (some d)).1
          ++ files.filter (fun f => wd.pathExists f) := by
  have hdirpart : (collect_files wd [] (some d)).1
      = (sortedPaths (wd.dirEntries d)).filter
          (fun p => IMAGE_EXTENSIONS.contains (toLowerStr (pathSuffix p))) := by
    simp [collect_files, hne, hdir, collectExplicit]
  refine ⟨?_, ?_, ?_⟩
  · rw [hdirpart]
    exact (sortedPaths_pairwise (wd.dirEntries d)).filter _
  · rw [hdirpart]
    exact (sortedPaths_perm (wd.dirEntries d)).filter _
  · rw [hdirpart]
    simp [collect_files, hne, hdir, collectExplicit_eq wd files]

/-- Claim C4 (amended), instantiated on `dirWorld`: the kept entries are a
sorted permutation of the extension-filtered listing. -/
theorem collect_dir_amended_witness :
    List.Pairwise (fun a b => strLeB a b = true)
      (collect_files dirWorld [] (some "d")).1 :=
  (collect_dir_amended dirWorld "d" [] rfl (by decide)).1

/-- Claim C8, counterexample: a grayscale-plus-alpha (`LA`) image carries
an alpha channel but is not converted, so the JPEG encode step does
receive an alpha-bearing pixel format. -/
theorem transcode_keeps_LA_alpha :
    hasAlpha (PyImage.mk 100 50 Mode.LA).mode = true
  ∧ (transcodedImage (PyImage.mk 100 50 Mode.LA) 1920).mode = Mode.LA
  ∧ hasAlpha (transcodedImage (PyImage.mk 100 50 Mode.LA) 1920).mode = true := by
  exact ⟨rfl, by decide, by decide⟩

/-- Claim C8 (amended): the conversion step rewrites exactly the modes
`RGBA` and `P` to `RGB` (alpha discarded, not composited), so the JPEG
encoder never receives an `RGBA` or palette image; alpha-bearing modes
other than `RGBA` (such as `LA`) are passed through unconverted. -/
theorem transcode_mode_conversion (img : PyImage) (m : Nat) :
    ((transcodedImage img m).mode
       = if img.mode = Mode.RGBA ∨ img.mode = Mode.P then Mode.RGB else img.mode)
  ∧ isPalette (transcodedImage img m).mode = false
  ∧ (transcodedImage img m).mode ≠ Mode.RGBA := by
  have hmode : (transcodedImage img m).mode
      = if img.mode = Mode.RGBA ∨ img.mode = Mode.P then Mode.RGB else img.mode := by
    rw [transcodedImage]
    unfold convertStep
    rw [resizeStep_mode]
    split_ifs <;> simp [resizeStep_mode]
  refine ⟨hmode, ?_, ?_⟩ <;> rw [hmode] <;>
    rcases img with ⟨w, h, md⟩ <;> cases md <;> simp [isPalette]

/-- Claim C6: `--list` wins over everything, then a truthy `--delete`,
then collection; an empty collection prints the help after the warnings
and exits 1; each completed mode exits 0. -/
theorem main_dispatch_exit (wd : World) (cfg : Config) (args : Args) :
    (args.list = true → main wd cfg args = ([Action.listBucket], 0))
  ∧ (args.list = false → optTruthy args.delete = true →
      main wd cfg args = ([Action.deleteKey (args.delete.getD "")], 0))
  ∧ (args.list = false → optTruthy args.delete = false →
      (collect_files wd args.files args.dir).1 = [] →
      main wd cfg args
        = ((collect_files wd args.files args.dir).2.map Action.warn
            ++ [Action.printHelp], 1))
  ∧ (args.list = false → optTruthy args.delete = false →
      ∀ acts, uploadAll wd cfg args (collect_files wd args.files args.dir).1
          = Except.ok acts →
      (collect_files wd args.files args.dir).1 ≠ [] →
      main wd cfg args
        = ((collect_files wd args.files args.dir).2.map Action.warn ++ acts, 0)) := by
  refine ⟨?_, ?_, ?_, ?_⟩
  · intro h1
    simp [main, h1]
  · intro h1 h2
    simp [main, h1, h2]
  · intro h1 h2 h3
    simp [main, h1, h2, h3]
  · intro h1 h2 acts h4 h5
    have h6 : (collect_files wd args.files args.dir).1.isEmpty = false := by
      cases hc : (collect_files wd args.files args.dir).1 with
      | nil => exact absurd hc h5
      | cons a l => rfl
    simp [main, h1, h2, h6, h4]

/-- Claim C6, instantiated: `--list` takes priority and exits 0 even with
a `--delete` key also present. -/
theorem main_dispatch_exit_witness :
    main wWit cfgWit { defaultArgs with list := true, delete := some "images/x.jpg" }
      = ([Action.listBucket], 0) :=
  (main_dispatch_exit wWit cfgWit
    { defaultArgs with list := true, delete := some "images/x.jpg" }).1 rfl

/-- Claim C7: a missing variable among the five aborts the program before
any action; when all five are present the program proceeds for any values
whatsoever, with only the trailing slashes of the public URL trimmed. -/
theorem config_required (env : String → Option String) (wd : World) (args : Args) :
    ((env "R2_ACCOUNT_ID" = none ∨ env "R2_ACCESS_KEY_ID" = none ∨
      env "R2_SECRET_ACCESS_KEY" = none ∨ env "R2_BUCKET_NAME" = none ∨
      env "R2_PUBLIC_URL" = none) →
      ∃ e, runProgram env wd args = Except.error e)
  ∧ (∀ a k sk b u, env "R2_ACCOUNT_ID" = some a → env "R2_ACCESS_KEY_ID" = some k →
      env "R2_SECRET_ACCESS_KEY" = some sk → env "R2_BUCKET_NAME" = some b →
      env "R2_PUBLIC_URL" = some u →
      runProgram env wd args
        = Except.ok (main wd ⟨a, k, sk, b, rstripSlash u⟩ args)) := by
  constructor
  · intro h
    cases hA : env "R2_ACCOUNT_ID" with
    | none => exact ⟨"R2_ACCOUNT_ID", by simp [runProgram, loadConfig, hA]⟩
    | some a =>
      cases hK : env "R2_ACCESS_KEY_ID" with
      | none => exact ⟨"R2_ACCESS_KEY_ID", by simp [runProgram, loadConfig, hA, hK]⟩
      | some k =>
        cases hS : env "R2_SECRET_ACCESS_KEY" with
        | none =>
          exact ⟨"R2_SECRET_ACCESS_KEY", by simp [runProgram, loadConfig, hA, hK, hS]⟩
        | some sk =>
          cases hB : env "R2_BUCKET_NAME" with
          | none =>
            exact ⟨"R2_BUCKET_NAME", by simp [runProgram, loadConfig, hA, hK, hS, hB]⟩
          | some b =>
            cases hU : env "R2_PUBLIC_URL" with
            | none =>
              exact ⟨"R2_PUBLIC_URL",
                by simp [runProgram, loadConfig, hA, hK, hS, hB, hU]⟩
            | some u => simp_all
  · intro a k sk b u hA hK hS hB hU
    simp [runProgram, loadConfig, hA, hK, hS, hB, hU]

/-- Claim C7, instantiated: all five variables present, the final double
slash of the public URL stripped. -/
theorem config_required_witness :
    runProgram envWit wWit defaultArgs
      = Except.ok (main wWit
          ⟨"acc", "ak", "sk", "bkt", rstripSlash "https://pub.example//"⟩
          defaultArgs) :=
  (config_required envWit wWit defaultArgs).2 "acc" "ak" "sk" "bkt"
    "https://pub.example//" rfl rfl rfl rfl rfl

/-- The upload loop only reads the prefix, width, quality and resize flag
of the arguments; every other field is irrelevant to it. -/
theorem uploadAll_fields_irrel (wd : World) (cfg : Config) (args args' : Args)
    (h1 : args'.pfx = args.pfx) (h2 : args'.width = args.width)
    (h3 : args'.quality = args.quality) (h4 : args'.no_resize = args.no_resize) :
    ∀ (ps : List String),
    uploadAll wd cfg args' ps = uploadAll wd cfg args ps
  | [] => rfl
  | p :: ps => by
    have ih := uploadAll_fields_irrel wd cfg args args' h1 h2 h3 h4 ps
    simp only [uploadAll, ih, h1, h2, h3, h4]

/-- The upload loop never performs a delete, whether it finishes or
aborts. -/
theorem uploadAll_no_delete (wd : World) (cfg : Config) (args : Args) :
    ∀ (ps : List String) (k : String) (acts : List Action),
      (uploadAll wd cfg args ps = Except.ok acts ∨
       uploadAll wd cfg args ps = Except.error acts) →
      Action.deleteKey k ∉ acts
  | [], k, acts, h => by
    rcases h with h | h
    · simp only [uploadAll] at h
      cases h
      simp
    · simp [uploadAll] at h
  | p :: ps, k, acts, h => by
    have ih := uploadAll_no_delete wd cfg args ps k
    rcases h with h | h <;> simp only [uploadAll] at h <;>
      cases hu : upload_file wd cfg p args.pfx args.width args.quality args.no_resize <;>
      rw [hu] at h
    · cases h
    · cases hr : uploadAll wd cfg args ps with
      | ok acts' =>
        rw [hr] at h
        cases h
        intro hmem
        rcases List.mem_cons.mp hmem with hc | hc
        · cases hc
        · exact ih acts' (Or.inl hr) hc
      | error acts' =>
        rw [hr] at h
        cases h
    · cases h
      simp
    · cases hr : uploadAll wd cfg args ps with
      | ok acts' =>
        rw [hr] at h
        cases h
      | error acts' =>
        rw [hr] at h
        cases h
        intro hmem
        rcases List.mem_cons.mp hmem with hc | hc
        · cases hc
        · exact ih acts' (Or.inr hr) hc

/-- Claim C9: `--delete` with the empty string is falsy, so the delete
branch is not taken: the run is identical to one without `--delete`, no
delete is ever issued, and with an empty collection the help is printed
and the exit status is 1. -/
theorem delete_empty_falls_through (wd : World) (cfg : Config) (args : Args)
    (hd : args.delete = some "") :
    main wd cfg args = main wd cfg { args with delete := none }
  ∧ (∀ k, Action.deleteKey k ∉ (main wd cfg args).1)
  ∧ (args.list = false → (collect_files wd args.files args.dir).1 = [] →
      main wd cfg args
        = ((collect_files wd args.files args.dir).2.map Action.warn
            ++ [Action.printHelp], 1)) := by
  have ht : optTruthy args.delete = false := by rw [hd]; rfl
  refine ⟨?_, ?_, ?_⟩
  · simp only [main, ht]
    cases hl : args.list
    · have h3 := uploadAll_fields_irrel wd cfg args
        { files := args.files, dir := args.dir, pfx := args.pfx, width := args.width,
          quality := args.quality, no_resize := args.no_resize, list := false,
          delete := none } rfl rfl rfl rfl
      simp [optTruthy, h3]
    · simp
  · intro k
    simp only [main, ht]
    cases hl : args.list
    · simp only [Bool.false_eq_true, if_false]
      cases hc : (collect_files wd args.files args.dir).1.isEmpty
      · simp only [Bool.false_eq_true, if_false]
        cases hr : uploadAll wd cfg args (collect_files wd args.files args.dir).1 with
        | ok acts =>
          simp only [hr, List.mem_append]
          rintro (hmem | hmem)
          · rcases List.mem_map.mp hmem with ⟨msg, _, hmsg⟩
            cases hmsg
          · exact uploadAll_no_delete wd cfg args _ k acts (Or.inl hr) hmem
        | error acts =>
          simp only [hr, List.mem_append]
          rintro (hmem | hmem)
          · rcases List.mem_map.mp hmem with ⟨msg, _, hmsg⟩
            cases hmsg
          · exact uploadAll_no_delete wd cfg args _ k acts (Or.inr hr) hmem
      · simp only [if_true]
        simp only [List.mem_append]
        rintro (hmem | hmem)
        · rcases List.mem_map.mp hmem with ⟨msg, _, hmsg⟩
          cases hmsg
        · simp at hmem
    · simp
  · intro hl hc
    simp [main, ht, hl, hc]

/-- Claim C9, instantiated: `--delete ""` with no files prints only the
help and exits 1. -/
theorem delete_empty_falls_through_witness :
    main wWit cfgWit argsDeleteEmpty
      = ((collect_files wWit argsDeleteEmpty.files argsDeleteEmpty.dir).2.map
          Action.warn ++ [Action.printHelp], 1) :=
  (delete_empty_falls_through wWit cfgWit argsDeleteEmpty rfl).2.2 rfl rfl

end R2Upload
